import Mathlib

/-!
Verification of the CapacityReport data-processing core against its
specification.  The Python sources (app/processor.py, app/database.py,
app/config.py) are shallowly embedded: pure string and data manipulation
becomes Lean functions on lists of characters, stateful control flow becomes
explicit state passing, and raised exceptions become Except values or option
results.  Wall-clock time, the database server and the file system are
modelled as explicit inputs.
-/

namespace CapacityReport

/-- Python strings are modelled as lists of characters. -/
abbrev PyStr := List Char

/-- Coerce a Lean string literal to the PyStr model. -/
def pystr (s : String) : PyStr := s.data

/-- Whitespace stripped by the Python str.strip default (ASCII subset). -/
def isPyWS (c : Char) : Bool :=
  c = ' ' || c = '\t' || c = '\n' || c = '\r' || c = '\x0b' || c = '\x0c'

/-- Python str.strip: remove leading and trailing whitespace. -/
def pyStrip (s : PyStr) : PyStr :=
  ((s.dropWhile isPyWS).reverse.dropWhile isPyWS).reverse

/-- Python str.split with a one-character separator: splits at every
occurrence, keeping empty segments, and maps the empty string to one empty
segment. -/
def pySplit (c : Char) : PyStr → List PyStr
  | [] => [[]]
  | x :: xs =>
    match pySplit c xs with
    | [] => [[]]
    | p :: ps => if x = c then [] :: p :: ps else (x :: p) :: ps

/-- Python sep.join for a one-character separator. -/
def joinSep (c : Char) : List PyStr → PyStr
  | [] => []
  | [p] => p
  | p :: q :: ps => p ++ c :: joinSep c (q :: ps)

/-- Python str.startswith for a one-character marker. -/
def pyStartsWith (c : Char) : PyStr → Bool
  | [] => false
  | x :: _ => x = c

/-- Leading-segment test on character lists. -/
def leadsWith : PyStr → PyStr → Bool
  | [], _ => true
  | _ :: _, [] => false
  | x :: xs, y :: ys => x = y && leadsWith xs ys

/-- Python substring containment, the in operator on str. -/
def pyContains (hay sub : PyStr) : Bool :=
  (List.range (hay.length + 1)).any (fun i => leadsWith sub (hay.drop i))

/-- Python str.lower, ASCII letters. -/
def pyLower (s : PyStr) : PyStr := s.map Char.toLower

/-- Python str.upper, ASCII letters. -/
def pyUpper (s : PyStr) : PyStr := s.map Char.toUpper

/-! ## ProcessLogger (processor.py lines 22 to 66)

The logger state carries the in-memory entry list and the stream of values
passed to the caller-supplied callback.  The timestamp is an input, since
wall-clock time is external.  The write to the log file (lines 42 to 48)
cannot influence the entry list or the callback: a write failure is caught
and only printed, so the file is left out of the state. -/

structure LoggerState where
  logs : List String
  hasCallback : Bool
  callbackEvents : List String
deriving DecidableEq

/-- Line 38: the formatted log entry. -/
def formatEntry (timestamp level message : String) : String :=
  "[" ++ timestamp ++ "] [" ++ level ++ "] " ++ message

/-- ProcessLogger.log (processor.py lines 35 to 51): append the formatted
entry to the list and, when a callback was supplied, invoke it once with the
same entry. -/
def logger_log (st : LoggerState) (timestamp level message : String) : LoggerState :=
  let entry := formatEntry timestamp level message
  { st with
    logs := st.logs ++ [entry]
    callbackEvents :=
      if st.hasCallback then st.callbackEvents ++ [entry] else st.callbackEvents }

/-- A sequence of log calls, each a (timestamp, level, message) triple. -/
def logger_run (st : LoggerState) : List (String × String × String) → LoggerState
  | [] => st
  | c :: cs => logger_run (logger_log st c.1 c.2.1 c.2.2) cs

/-! ## Field map compilation (processor.py lines 92 to 113) -/

/-- One entry of the ExtractField configuration: the destination field, the
optional declared type, and the source aliases. -/
structure FieldDef where
  field : String
  type? : Option String
  extract : List String
deriving DecidableEq

/-- Python dict lookup, modelled as a function to an optional value. -/
abbrev StrMap := String → Option String

/-- Python dict assignment: overwrite the binding for one key. -/
def mapSet (m : StrMap) (k v : String) : StrMap :=
  fun x => if x = k then some v else m x

/-- The loop body of _build_field_map (processor.py lines 102 to 111): record
the declared type of the destination field (string when unspecified) and bind
every source alias to the destination field; each dict assignment overwrites
any earlier binding. -/
def fieldStep (maps : StrMap × StrMap) (d : FieldDef) : StrMap × StrMap :=
  let typeMap := mapSet maps.2 d.field (d.type?.getD "string")
  let fieldMap := d.extract.foldl (fun fm a => mapSet fm a d.field) maps.1
  (fieldMap, typeMap)

/-- DataProcessor._build_field_map (processor.py lines 92 to 113): walk the
configured field definitions in order starting from empty dicts. -/
def build_field_map (defs : List FieldDef) : StrMap × StrMap :=
  defs.foldl fieldStep (fun _ => none, fun _ => none)

/-! ## Pipeline entry point (processor.py lines 115 to 150)

A stage is modelled by its wall-clock duration and the message of the
exception it raises, if any.  DataProcessor.process runs the four stages
sequentially inside one try block, so the first raised exception aborts the
remaining stages. -/

structure Stage where
  duration : Nat
  failure : Option String
deriving DecidableEq

/-- Elapsed time consumed and first raised error of the sequential stage
calls at processor.py lines 120 to 131. -/
def runStages : List Stage → Nat × Option String
  | [] => (0, none)
  | s :: rest =>
    match s.failure with
    | some msg => (s.duration, some msg)
    | none =>
      let r := runStages rest
      (s.duration + r.1, r.2)

/-- The results dict returned by process: a key that is never assigned is
absent, modelled by none. -/
structure ProcessResult where
  success : Option Bool
  elapsed_time : Option Nat
  error : Option String
deriving DecidableEq

/-- DataProcessor.process (processor.py lines 115 to 150): on success the
results dict receives success true and elapsed_time (lines 133 to 137); when
a stage raises, the except branch (lines 139 to 142) receives success false
and the error message, and the elapsed_time key is never assigned. -/
def process (stages : List Stage) : ProcessResult :=
  let r := runStages stages
  match r.2 with
  | none => ⟨some true, some r.1, none⟩
  | some msg => ⟨some false, none, some msg⟩

/-! ## SQL script parsing (processor.py lines 679 to 718) -/

/-- The line filter of processor.py lines 703 to 708: strip the line, keep
it only when it is non-blank and does not start with the comment marker. -/
def cleanLine (line : PyStr) : Option PyStr :=
  let l := pyStrip line
  if l = [] then none
  else if pyStartsWith '#' l then none
  else some l

/-- One candidate statement between semicolons (processor.py lines 701 to
716): strip every line, drop blank lines and lines starting with the comment
marker, rejoin with newlines, strip again, and discard the statement when
nothing remains. -/
def cleanPart (part : PyStr) : Option PyStr :=
  let lines := (pySplit '\n' part).filterMap cleanLine
  if lines = [] then none
  else
    let cleaned := pyStrip (joinSep '\n' lines)
    if cleaned = [] then none else some cleaned

/-- DataProcessor.parse_sql_script (processor.py lines 679 to 718): empty or
whitespace-only input yields no statements; otherwise split on semicolons and
clean each candidate. -/
def parse_sql_script (sqlText : PyStr) : List PyStr :=
  if sqlText = [] ∨ pyStrip sqlText = [] then []
  else (pySplit ';' sqlText).filterMap cleanPart

/-! ## SQL script execution (processor.py lines 720 to 778)

The database is external: whether a statement raises is an oracle input.
Observable behaviour is the trace of execute calls, error logs and commits,
each tagged with the connection that carried it. -/

/-- A database connection handle: an identifier plus whether it was taken
from the SQLAlchemy pool. -/
structure Conn where
  id : Nat
  pooled : Bool
deriving DecidableEq

/-- DatabaseManager.get_connection (database.py lines 48 to 66): a fresh
dedicated pymysql connection, never taken from the engine pool. -/
def get_connection (fresh : Nat) : Conn := ⟨fresh, false⟩

inductive ScriptEvent where
  | execStmt (conn : Conn) (idx : Nat)
  | errorLog (idx : Nat)
  | commitTx (conn : Conn)
deriving DecidableEq

/-- Statement index of an execute event, none for other events. -/
def execIdx : ScriptEvent → Option Nat
  | ScriptEvent.execStmt _ i => some i
  | _ => none

/-- Whether an event is a transaction commit. -/
def isCommitEvent : ScriptEvent → Bool
  | ScriptEvent.commitTx _ => true
  | _ => false

/-- DataProcessor._execute_sql_script (processor.py lines 720 to 778): parse
the script; when statements remain, open one dedicated connection and execute
every statement in order, logging a failing statement and continuing (lines
758 to 774), then commit once after the loop (line 776).  The fails oracle
says whether cursor.execute raises on statement i.  Returns the event trace
and the count of successfully executed statements. -/
def execute_sql_script (sqlText : PyStr) (fresh : Nat) (fails : Nat → Bool) :
    List ScriptEvent × Nat :=
  let stmts := parse_sql_script sqlText
  if stmts = [] then ([], 0)
  else
    let conn := get_connection fresh
    let evs := (List.range stmts.length).flatMap (fun i =>
      ScriptEvent.execStmt conn i :: (if fails i then [ScriptEvent.errorLog i] else []))
    (evs ++ [ScriptEvent.commitTx conn],
     ((List.range stmts.length).filter (fun i => ! fails i)).length)

/-! ## Data directory discovery (processor.py lines 598 to 629) -/

/-- A directory of the working tree: its identity (full path) and its base
name. -/
structure DirEntry where
  path : PyStr
  name : PyStr
deriving DecidableEq

/-- The table map under construction, a Python dict in insertion order. -/
abbrev DirMap := List (PyStr × DirEntry)

/-- Line 617: the binding is created only when the key is absent, so the
first directory found for a table name wins. -/
def insertIfNew (m : DirMap) (k : PyStr) (v : DirEntry) : DirMap :=
  if (m.lookup k).isSome then m else m ++ [(k, v)]

/-- Line 626: plain dict assignment, overwriting in place or appending. -/
def insertPut (m : DirMap) (k : PyStr) (v : DirEntry) : DirMap :=
  if (m.lookup k).isSome then m.map (fun p => if p.1 = k then (k, v) else p)
  else m ++ [(k, v)]

/-- Line 603: the fixed tag set, which is exactly the case variants of the
two report categories. -/
def targetNames : List PyStr := [pystr "4G", pystr "5G", pystr "4g", pystr "5g"]

/-- Line 616: destination table name of a tag directory. -/
def tagTableName (d : DirEntry) : PyStr := pyUpper d.name ++ pystr "_UD"

/-- Line 625: destination table name of a fallback child directory. -/
def childTableName (d : DirEntry) : PyStr := d.name ++ pystr "_UD"

/-- DataProcessor._find_data_directories (processor.py lines 598 to 629).
rglobDirs lists every directory of the recursive scan in scan order, children
the immediate subdirectories of the working directory.  Tag directories are
collected first-wins per table name; only when none matched does every
immediate child directory become its own table. -/
def find_data_directories (rglobDirs children : List DirEntry) : DirMap :=
  let found := rglobDirs.filter (fun d => targetNames.contains d.name)
  let m := found.foldl (fun m d => insertIfNew m (tagTableName d) d) []
  if m = [] then children.foldl (fun m d => insertPut m (childTableName d) d) []
  else m

/-! ## CSV header matching (processor.py lines 274 to 314 and 658 to 673) -/

/-- A delimited data file: its full path rendered as a string, its base
name, its header columns and its row count. -/
structure CsvFile where
  path : PyStr
  name : PyStr
  columns : List PyStr
  rows : Nat
deriving DecidableEq

/-- Lines 305 to 308: the columns of the file that appear in the compiled
field map, paired with their destination names. -/
def matchedColumns (fieldMap : List (PyStr × PyStr)) (f : CsvFile) :
    List (PyStr × PyStr) :=
  f.columns.filterMap (fun c => (fieldMap.lookup c).map (fun t => (c, t)))

inductive CsvOutcome where
  | proceed (colMapping : List (PyStr × PyStr))
  | skipWarn
  | rejectError
deriving DecidableEq

/-- Lines 310 to 314 of _process_csv_file_fast: three or fewer matched
columns is a warn-and-skip when the lowercased full path of the file (the
Python str of the path object) contains the marker kpis, and otherwise a
raised ValueError; more matches proceed with the mapping. -/
def csv_header_check (fieldMap : List (PyStr × PyStr)) (f : CsvFile) : CsvOutcome :=
  let colMapping := matchedColumns fieldMap f
  if colMapping.length ≤ 3 then
    if pyContains (pyLower f.path) (pystr "kpis") then CsvOutcome.skipWarn
    else CsvOutcome.rejectError
  else CsvOutcome.proceed colMapping

/-- Rows a file contributes: a skipped file returns 0 (line 313) and a
rejected file raises before any insert. -/
def csvContribution (fieldMap : List (PyStr × PyStr)) (f : CsvFile) : Nat :=
  match csv_header_check fieldMap f with
  | CsvOutcome.proceed _ => f.rows
  | CsvOutcome.skipWarn => 0
  | CsvOutcome.rejectError => 0

/-- The per-file loop of _process_csv_files (lines 659 to 673): each file is
handled inside a try block whose except logs the error and continues, so the
outcome of one file never changes how the remaining files are handled. -/
def csv_loop (fieldMap : List (PyStr × PyStr)) : List CsvFile → List CsvOutcome
  | [] => []
  | f :: fs => csv_header_check fieldMap f :: csv_loop fieldMap fs

/-! ## Bulk-load path selection (processor.py lines 385 to 457)

The checked-in app/database.py predates the processor: the methods
check_load_data_support and load_data_infile that the processor and the API
layer call are absent from it, and its bulk_insert does not yet take the
reused connection the processor passes.  Those database-side primitives are
modelled from the spec; the downgrade logic itself is processor code. -/

/-- Modelled from the spec: DatabaseManager.check_load_data_support is
missing from the checked-in database module; per the spec it probes once
whether the streaming bulk-load primitive is available and reports a
message. -/
def db_check_load_data_support (avail : Bool) : Bool × String :=
  (avail, if avail then "enabled" else "unavailable")

/-- The processor fields guarding the fast path (processor.py lines 88 to
90) plus the count of downgrade log entries emitted so far. -/
structure InfileState where
  load_data_checked : Bool
  load_data_supported : Option Bool
  downgradeLogCount : Nat
deriving DecidableEq

def initInfileState : InfileState := ⟨false, none, 0⟩

/-- DataProcessor._check_load_data_support (processor.py lines 385 to 399):
probe the server once, cache the answer, and log the downgrade warning when
the fast path is unavailable; later calls return the cached answer without
logging. -/
def check_load_data_support (avail : Bool) (st : InfileState) : Bool × InfileState :=
  if st.load_data_checked then (st.load_data_supported.getD false, st)
  else
    let supported := (db_check_load_data_support avail).1
    (supported,
     ⟨true, some supported, st.downgradeLogCount + (if supported then 0 else 1)⟩)

/-- What happened to one file: whether the fast path was attempted, whether
the rows went through the batched-insert fallback, and how many rows were
loaded.  Modelled from the spec: DatabaseManager.load_data_infile and the
connection-reusing bulk_insert are absent from the checked-in database
module; per the spec both load every row of the batch, the former raising
when forced to fail. -/
structure FileOutcome where
  attemptedFast : Bool
  usedFallback : Bool
  rowsLoaded : Nat
deriving DecidableEq

/-- DataProcessor._load_data_infile (processor.py lines 401 to 457): when the
cached probe says unsupported, go straight to the fallback; otherwise attempt
the fast path, and on a runtime failure log the downgrade warning once, mark
the fast path unsupported for the rest of the run, and load the same batch
through the fallback. -/
def load_data_infile_step (avail : Bool) (rows : Nat) (fastFails : Bool)
    (st : InfileState) : FileOutcome × InfileState :=
  let probe := check_load_data_support avail st
  if probe.1 then
    if fastFails then
      (⟨true, true, rows⟩,
       ⟨probe.2.load_data_checked, some false, probe.2.downgradeLogCount + 1⟩)
    else (⟨true, false, rows⟩, probe.2)
  else (⟨false, true, rows⟩, probe.2)

/-- The per-run sequence of batches: each file is a row count plus the oracle
saying whether the fast path would fail on it at runtime. -/
def run_loader (avail : Bool) (st : InfileState) :
    List (Nat × Bool) → List FileOutcome × InfileState
  | [] => ([], st)
  | f :: fs =>
    let step := load_data_infile_step avail f.1 f.2 st
    let rest := run_loader avail step.2 fs
    (step.1 :: rest.1, rest.2)

/-- The point in the run at which the engine downgrades: the first file if
the probe fails, otherwise the first file whose fast-path attempt fails. -/
def downgradeIdx (avail : Bool) (files : List (Nat × Bool)) : Option Nat :=
  if avail then files.findIdx? (fun f => f.2)
  else if files = [] then none else some 0

/-! ## Datetime coercion (processor.py lines 459 to 558)

Timestamps are modelled structurally; the strptime-style formats of
DATETIME_FORMATS become token lists matched against the whole value, as
pandas does when given an explicit format. -/

structure Timestamp where
  year : Nat
  month : Nat
  day : Nat
  hour : Nat
  minute : Nat
  second : Nat
deriving DecidableEq

def isLeapYear (y : Nat) : Bool := (y % 4 = 0 && y % 100 ≠ 0) || y % 400 = 0

def daysInMonth (y m : Nat) : Nat :=
  if m = 2 then (if isLeapYear y then 29 else 28)
  else if m = 4 ∨ m = 6 ∨ m = 9 ∨ m = 11 then 30
  else 31

def validTimestamp (t : Timestamp) : Bool :=
  1 ≤ t.month && t.month ≤ 12 && 1 ≤ t.day && t.day ≤ daysInMonth t.year t.month
    && t.hour < 24 && t.minute < 60 && t.second < 60

/-- One strptime directive: a fixed-width numeric field or a literal. -/
inductive FmtTok where
  | year
  | month
  | day
  | hour
  | minute
  | second
  | lit (c : Char)
deriving DecidableEq

/-- Read exactly k digits, accumulating their value. -/
def readDigits (k : Nat) (acc : Nat) (s : PyStr) : Option (Nat × PyStr) :=
  match k with
  | 0 => some (acc, s)
  | k + 1 =>
    match s with
    | c :: rest =>
      if c.isDigit then readDigits k (acc * 10 + (c.toNat - 48)) rest else none
    | [] => none

/-- Match a whole value against a directive list, strptime defaults for the
unmentioned fields (year 1900, first day, midnight). -/
def runFmt : List FmtTok → PyStr → Timestamp → Option Timestamp
  | [], [], t => if validTimestamp t then some t else none
  | [], _ :: _, _ => none
  | FmtTok.lit c :: toks, s, t =>
    match s with
    | x :: rest => if x = c then runFmt toks rest t else none
    | [] => none
  | FmtTok.year :: toks, s, t =>
    (readDigits 4 0 s).bind (fun r => runFmt toks r.2 { t with year := r.1 })
  | FmtTok.month :: toks, s, t =>
    (readDigits 2 0 s).bind (fun r => runFmt toks r.2 { t with month := r.1 })
  | FmtTok.day :: toks, s, t =>
    (readDigits 2 0 s).bind (fun r => runFmt toks r.2 { t with day := r.1 })
  | FmtTok.hour :: toks, s, t =>
    (readDigits 2 0 s).bind (fun r => runFmt toks r.2 { t with hour := r.1 })
  | FmtTok.minute :: toks, s, t =>
    (readDigits 2 0 s).bind (fun r => runFmt toks r.2 { t with minute := r.1 })
  | FmtTok.second :: toks, s, t =>
    (readDigits 2 0 s).bind (fun r => runFmt toks r.2 { t with second := r.1 })

/-- The entries of DATETIME_FORMATS (processor.py lines 460 to 472). -/
inductive DtFormat where
  | iso8601
  | strp (toks : List FmtTok)
deriving DecidableEq

def fmtDashFull : List FmtTok :=
  [FmtTok.year, FmtTok.lit '-', FmtTok.month, FmtTok.lit '-', FmtTok.day,
   FmtTok.lit ' ', FmtTok.hour, FmtTok.lit ':', FmtTok.minute,
   FmtTok.lit ':', FmtTok.second]

def fmtDashHM : List FmtTok :=
  [FmtTok.year, FmtTok.lit '-', FmtTok.month, FmtTok.lit '-', FmtTok.day,
   FmtTok.lit ' ', FmtTok.hour, FmtTok.lit ':', FmtTok.minute]

def fmtSlashFull : List FmtTok :=
  [FmtTok.year, FmtTok.lit '/', FmtTok.month, FmtTok.lit '/', FmtTok.day,
   FmtTok.lit ' ', FmtTok.hour, FmtTok.lit ':', FmtTok.minute,
   FmtTok.lit ':', FmtTok.second]

def fmtSlashHM : List FmtTok :=
  [FmtTok.year, FmtTok.lit '/', FmtTok.month, FmtTok.lit '/', FmtTok.day,
   FmtTok.lit ' ', FmtTok.hour, FmtTok.lit ':', FmtTok.minute]

def fmtDashDate : List FmtTok :=
  [FmtTok.year, FmtTok.lit '-', FmtTok.month, FmtTok.lit '-', FmtTok.day]

def fmtSlashDate : List FmtTok :=
  [FmtTok.year, FmtTok.lit '/', FmtTok.month, FmtTok.lit '/', FmtTok.day]

def fmtCJKFull : List FmtTok :=
  [FmtTok.year, FmtTok.lit '年', FmtTok.month, FmtTok.lit '月', FmtTok.day,
   FmtTok.lit '日', FmtTok.lit ' ', FmtTok.hour, FmtTok.lit ':',
   FmtTok.minute, FmtTok.lit ':', FmtTok.second]

def fmtCJKDate : List FmtTok :=
  [FmtTok.year, FmtTok.lit '年', FmtTok.month, FmtTok.lit '月', FmtTok.day,
   FmtTok.lit '日']

def fmtCompactFull : List FmtTok :=
  [FmtTok.year, FmtTok.month, FmtTok.day, FmtTok.hour, FmtTok.minute,
   FmtTok.second]

def fmtCompactDate : List FmtTok := [FmtTok.year, FmtTok.month, FmtTok.day]

def DATETIME_FORMATS : List DtFormat :=
  [DtFormat.iso8601,
   DtFormat.strp fmtDashFull, DtFormat.strp fmtDashHM,
   DtFormat.strp fmtSlashFull, DtFormat.strp fmtSlashHM,
   DtFormat.strp fmtDashDate, DtFormat.strp fmtSlashDate,
   DtFormat.strp fmtCJKFull, DtFormat.strp fmtCJKDate,
   DtFormat.strp fmtCompactFull, DtFormat.strp fmtCompactDate]

/-- Modelled: the pandas ISO8601 fast path, restricted to the extended
shapes: a dashed date, optionally a space or T separated time with optional
seconds; timezone offsets are dropped since the surrounding computation is
discarded by the enclosing exception handler. -/
def parseISO (s : PyStr) : Option Timestamp :=
  match runFmt fmtDashDate s ⟨1900, 1, 1, 0, 0, 0⟩ with
  | some t => some t
  | none =>
    match runFmt fmtDashHM s ⟨1900, 1, 1, 0, 0, 0⟩ with
    | some t => some t
    | none =>
      match runFmt fmtDashFull s ⟨1900, 1, 1, 0, 0, 0⟩ with
      | some t => some t
      | none =>
        match runFmt (fmtDashDate ++ FmtTok.lit 'T' :: fmtDashFull.drop 6) s
            ⟨1900, 1, 1, 0, 0, 0⟩ with
        | some t => some t
        | none =>
          runFmt (fmtDashDate ++ FmtTok.lit 'T' :: fmtDashHM.drop 6) s
            ⟨1900, 1, 1, 0, 0, 0⟩

def parseWithFormat : DtFormat → PyStr → Option Timestamp
  | DtFormat.iso8601, s => parseISO s
  | DtFormat.strp toks, s => runFmt toks s ⟨1900, 1, 1, 0, 0, 0⟩

/-- A cell of a column: none models a missing value. -/
abbrev Cell := Option PyStr

/-- The validity mask of lines 479 and 514: present, non-empty and not
whitespace-only. -/
def validCellB (c : Cell) : Bool :=
  match c with
  | none => false
  | some s => decide (s ≠ []) && decide (pyStrip s ≠ [])

/-- Stable insertion preserving configuration order among equal counts,
matching the stable descending sort of line 502. -/
def insertByCountDesc (x : DtFormat × Nat) :
    List (DtFormat × Nat) → List (DtFormat × Nat)
  | [] => [x]
  | y :: ys => if x.2 ≥ y.2 then x :: y :: ys else y :: insertByCountDesc x ys

def sortByCountDesc : List (DtFormat × Nat) → List (DtFormat × Nat)
  | [] => []
  | x :: xs => insertByCountDesc x (sortByCountDesc xs)

/-- DataProcessor._detect_datetime_format (processor.py lines 474 to 506):
sample the first 100 valid values, count matches per known format, and return
the matching formats sorted by match count descending (stable), falling back
to the whole list when nothing matched or nothing was sampled. -/
def detect_datetime_format (col : List Cell) : List DtFormat :=
  let validVals := col.filterMap (fun c =>
    match c with
    | none => none
    | some s => if validCellB (some s) then some s else none)
  if validVals = [] then DATETIME_FORMATS
  else
    let sample := validVals.take 100
    let counts := DATETIME_FORMATS.filterMap (fun f =>
      let n := (sample.filterMap (parseWithFormat f)).length
      if n > 0 then some (f, n) else none)
    if counts = [] then DATETIME_FORMATS
    else (sortByCountDesc counts).map Prod.fst

/-- The masked per-format loop of lines 522 to 542 applied to one cell: a
cell leaves the remaining mask at the first detected format that parses it,
so per element the parse is the first success in detected order. -/
def parseCellWithDetected : List DtFormat → PyStr → Option Timestamp
  | [], _ => none
  | f :: rest, s =>
    match parseWithFormat f s with
    | some t => some t
    | none => parseCellWithDetected rest s

/-- Modelled from the spec: the permissive mixed-format pass of lines 544 to
553 (pandas format mixed) infers a layout per element; here it tries every
known layout.  Its result is discarded by the enclosing exception handler
either way. -/
def mixedParse (s : PyStr) : Option Timestamp :=
  parseCellWithDetected DATETIME_FORMATS s

/-- Canonical serialization %Y-%m-%d %H:%M:%S of line 556. -/
def padNat (width n : Nat) : PyStr :=
  let ds := Nat.toDigits 10 n
  List.replicate (width - ds.length) '0' ++ ds

def strftimeCanonical (t : Timestamp) : PyStr :=
  padNat 4 t.year ++ '-' :: padNat 2 t.month ++ '-' :: padNat 2 t.day
    ++ ' ' :: padNat 2 t.hour ++ ':' :: padNat 2 t.minute
    ++ ':' :: padNat 2 t.second

/-- pandas Series.fillna with value None raises ValueError unconditionally
(must specify a fill value or method), so the final formatting step of line
556 always raises once it is reached; the canonical rendering it would have
produced is never returned. -/
def strftime_fillna_none (parsed : List (Option Timestamp)) :
    Except String (List Cell) :=
  Except.error "Must specify a fill value or method"

/-- DataProcessor._convert_datetime_column (processor.py lines 508 to 558):
an all-invalid column becomes all nulls (line 516); otherwise the detected
formats and the mixed pass produce per-cell parses, but the final
strftime-then-fillna step raises, the outer except (lines 557 to 558)
catches it, and the column is returned unchanged. -/
def convert_datetime_column (col : List Cell) : List Cell :=
  if col.all (fun c => validCellB c = false) then col.map (fun _ => none)
  else
    let detected := detect_datetime_format col
    let parsed := col.map (fun c =>
      match c with
      | none => none
      | some s =>
        if validCellB (some s) then
          match parseCellWithDetected detected s with
          | some t => some t
          | none => mixedParse s
        else none)
    match strftime_fillna_none parsed with
    | Except.ok out => out
    | Except.error _ => col

/-! ## Numeric coercion (processor.py lines 560 to 596)

Numeric values are modelled as rationals (pandas floats restricted to the
decimal inputs these columns carry); a missing numeric value is none. -/

def isDigitCh (c : Char) : Bool := '0' ≤ c && c ≤ '9'

def digitsVal (s : PyStr) : Nat :=
  s.foldl (fun acc c => acc * 10 + (c.toNat - 48)) 0

/-- pandas to_numeric with errors coerce on a decimal string: optional sign,
an integer part and an optional fraction part, at least one digit overall;
anything else becomes missing. -/
def pyToNumeric (s : PyStr) : Option Rat :=
  let signed : Int × PyStr :=
    match s with
    | '+' :: r => (1, r)
    | '-' :: r => (-1, r)
    | r => (1, r)
  match pySplit '.' signed.2 with
  | [intPart] =>
    if intPart ≠ [] ∧ intPart.all isDigitCh then
      some ((signed.1 * digitsVal intPart : Int) : Rat)
    else none
  | [intPart, fracPart] =>
    if (intPart ≠ [] ∨ fracPart ≠ []) ∧ intPart.all isDigitCh
        ∧ fracPart.all isDigitCh then
      some ((signed.1 : Rat) *
        (digitsVal intPart + (digitsVal fracPart : Rat) / (10 ^ fracPart.length)))
    else none
  | _ => none

/-- numpy round: half to even. -/
def roundHalfEven (q : Rat) : Int :=
  let f := q.floor
  let frac := q - f
  if frac < 1 / 2 then f
  else if 1 / 2 < frac then f + 1
  else if f % 2 = 0 then f else f + 1

def intToPyStr (i : Int) : PyStr :=
  if i < 0 then '-' :: Nat.toDigits 10 i.natAbs else Nat.toDigits 10 i.natAbs

/-- Python str of a float restricted to terminating decimals: an
integer-valued float renders with a trailing .0, a fractional one with its
shortest exact decimal expansion. -/
def floatToPyStr (q : Rat) : PyStr :=
  if q.den = 1 then intToPyStr q.num ++ pystr ".0"
  else
    match (List.range 18).find? (fun k => (10 ^ k) % q.den = 0) with
    | some k =>
      let scaled := q.num.natAbs * ((10 ^ k) / q.den)
      let ip := scaled / 10 ^ k
      let fp := scaled % 10 ^ k
      (if q.num < 0 then ['-'] else [])
        ++ Nat.toDigits 10 ip ++ '.' :: padNat k fp
    | none => pystr "nonterminating"

/-- DataProcessor._convert_int_column on one cell (processor.py lines 560 to
577): note percent markers, remove percent signs and thousands separators,
coerce to a number, divide by 100 when a percent marker was present, round
half-to-even, fill missing with 0, render as an integer string, then replace
the exact string 0 by None. -/
def convert_int_cell (s : PyStr) : Option PyStr :=
  let hasPercent := pyContains s (pystr "%")
  let cleaned := (s.filter (fun c => c ≠ '%')).filter (fun c => c ≠ ',')
  let numeric := pyToNumeric cleaned
  let numeric := if hasPercent then numeric.map (fun q => q / 100) else numeric
  let rendered := intToPyStr ((numeric.map roundHalfEven).getD 0)
  if rendered = pystr "0" then none else some rendered

/-- DataProcessor._convert_float_column on one cell (processor.py lines 579
to 596): same cleaning and percent handling, fill missing with 0, render as
a float string, then replace the exact strings 0.0 and 0 by None. -/
def convert_float_cell (s : PyStr) : Option PyStr :=
  let hasPercent := pyContains s (pystr "%")
  let cleaned := (s.filter (fun c => c ≠ '%')).filter (fun c => c ≠ ',')
  let numeric := pyToNumeric cleaned
  let numeric := if hasPercent then numeric.map (fun q => q / 100) else numeric
  let rendered := floatToPyStr (numeric.getD 0)
  if rendered = pystr "0.0" then none
  else if rendered = pystr "0" then none
  else some rendered

def convert_int_column (col : List PyStr) : List (Option PyStr) :=
  col.map convert_int_cell

def convert_float_column (col : List PyStr) : List (Option PyStr) :=
  col.map convert_float_cell

/-! ## Theorems -/

section PipelineResult

lemma runStages_ok (stages : List Stage) (h : ∀ t ∈ stages, t.failure = none) :
    runStages stages = ((stages.map Stage.duration).sum, none) := by
  induction stages with
  | nil => rfl
  | cons s rest ih =>
    have hs : s.failure = none := h s (List.mem_cons_self s rest)
    have hrest := ih (fun t ht => h t (List.mem_cons_of_mem s ht))
    simp [runStages, hs, hrest]

lemma runStages_fail (pre post : List Stage) (s : Stage) (msg : String)
    (hpre : ∀ t ∈ pre, t.failure = none) (hs : s.failure = some msg) :
    runStages (pre ++ s :: post) =
      ((pre.map Stage.duration).sum + s.duration, some msg) := by
  induction pre with
  | nil => simp [runStages, hs]
  | cons p rest ih =>
    have hp : p.failure = none := hpre p (List.mem_cons_self p rest)
    have hrest := ih (fun t ht => hpre t (List.mem_cons_of_mem p ht))
    simp [runStages, hp, hrest, Nat.add_assoc]

/-- Claim C1: the result of DataProcessor.process always carries the success
flag, but wall-clock time is recorded only on success; when a stage raises,
the run is marked failed and the result records the message of the first
failing stage while the elapsed_time key is never assigned. -/
theorem claim_C1 (pre post : List Stage) (s : Stage) (msg : String) :
    ((∀ t ∈ pre, t.failure = none) → s.failure = some msg →
      process (pre ++ s :: post) = ⟨some false, none, some msg⟩)
    ∧ ∀ stages : List Stage, (∀ t ∈ stages, t.failure = none) →
      process stages = ⟨some true, some ((stages.map Stage.duration).sum), none⟩ := by
  constructor
  · intro hpre hs
    simp [process, runStages_fail pre post s msg hpre hs]
  · intro stages hall
    simp [process, runStages_ok stages hall]

/-- Witness for claim C1 at a concrete failing run and a concrete successful
run. -/
theorem claim_C1_witness :
    process ([⟨2, none⟩] ++ (⟨5, some "x"⟩ : Stage) :: []) =
        ⟨some false, none, some "x"⟩
    ∧ process [⟨1, none⟩] =
        ⟨some true, some (([(⟨1, none⟩ : Stage)].map Stage.duration).sum), none⟩ :=
  ⟨(claim_C1 [⟨2, none⟩] [] ⟨5, some "x"⟩ "x").1 (by decide) rfl,
   (claim_C1 [⟨2, none⟩] [] ⟨5, some "x"⟩ "x").2 [⟨1, none⟩] (by decide)⟩

/-- Counterexample to claim C1 as stated: a run whose only stage raises
returns a result marked failed whose elapsed_time key is absent, so the
result does not contain the elapsed wall-clock time. -/
theorem claim_C1_counterexample :
    (process [⟨5, some "boom"⟩]).success = some false
    ∧ (process [⟨5, some "boom"⟩]).elapsed_time = none :=
  ⟨rfl, rfl⟩

end PipelineResult

section Logger

lemma logger_run_sync (calls : List (String × String × String))
    (st : LoggerState) (hcb : st.hasCallback = true)
    (hsync : st.callbackEvents = st.logs) :
    (logger_run st calls).callbackEvents = (logger_run st calls).logs := by
  induction calls generalizing st with
  | nil => exact hsync
  | cons c cs ih =>
    apply ih
    · simpa [logger_log] using hcb
    · simp [logger_log, hcb, hsync]

/-- Claim C9: every call to ProcessLogger.log appends exactly one entry after
all existing entries, leaving earlier entries untouched, and invokes the
caller-supplied callback exactly once with that same formatted entry, so
over any run the observer sees exactly the emitted entries in order. -/
theorem claim_C9 (st : LoggerState) (ts lvl msg : String) :
    (logger_log st ts lvl msg).logs = st.logs ++ [formatEntry ts lvl msg]
    ∧ (st.hasCallback = true →
        (logger_log st ts lvl msg).callbackEvents =
          st.callbackEvents ++ [formatEntry ts lvl msg])
    ∧ ∀ calls : List (String × String × String),
        (logger_run ⟨[], true, []⟩ calls).callbackEvents =
          (logger_run ⟨[], true, []⟩ calls).logs := by
  refine ⟨rfl, ?_, ?_⟩
  · intro h
    simp [logger_log, h]
  · intro calls
    exact logger_run_sync calls ⟨[], true, []⟩ rfl rfl

/-- Witness for claim C9 at a concrete logger state with a callback. -/
theorem claim_C9_witness :
    (logger_log ⟨[], true, []⟩ "00:00:00" "INFO" "hello").callbackEvents =
      [] ++ [formatEntry "00:00:00" "INFO" "hello"] :=
  (claim_C9 ⟨[], true, []⟩ "00:00:00" "INFO" "hello").2.1 rfl

end Logger

section FieldMap

lemma innerFold_lookup (ex : List String) (fm : StrMap) (v k : String) :
    (ex.foldl (fun m a => mapSet m a v) fm) k
      = if k ∈ ex then some v else fm k := by
  induction ex generalizing fm with
  | nil => simp
  | cons a rest ih =>
    simp only [List.foldl_cons, ih, List.mem_cons, mapSet]
    by_cases hr : k ∈ rest
    · simp [hr]
    · by_cases ha : k = a <;> simp [hr, ha]

lemma fieldStep_fst (m : StrMap × StrMap) (d : FieldDef) (k : String) :
    (fieldStep m d).1 k = if k ∈ d.extract then some d.field else m.1 k := by
  simp [fieldStep, innerFold_lookup]

lemma fieldStep_snd (m : StrMap × StrMap) (d : FieldDef) (k : String) :
    (fieldStep m d).2 k
      = if k = d.field then some (d.type?.getD "string") else m.2 k := by
  simp [fieldStep, mapSet]

lemma foldl_fieldStep_fst (ds : List FieldDef) (m : StrMap × StrMap) (k : String)
    (h : ∀ d2 ∈ ds, k ∉ d2.extract) :
    (ds.foldl fieldStep m).1 k = m.1 k := by
  induction ds generalizing m with
  | nil => rfl
  | cons d rest ih =>
    rw [List.foldl_cons, ih _ (fun d2 hd2 => h d2 (List.mem_cons_of_mem d hd2)),
      fieldStep_fst]
    simp [h d (List.mem_cons_self d rest)]

lemma foldl_fieldStep_snd (ds : List FieldDef) (m : StrMap × StrMap) (k : String)
    (h : ∀ d2 ∈ ds, d2.field ≠ k) :
    (ds.foldl fieldStep m).2 k = m.2 k := by
  induction ds generalizing m with
  | nil => rfl
  | cons d rest ih =>
    rw [List.foldl_cons, ih _ (fun d2 hd2 => h d2 (List.mem_cons_of_mem d hd2)),
      fieldStep_snd]
    have hd : d.field ≠ k := h d (List.mem_cons_self d rest)
    have hne : ¬ k = d.field := fun hk => hd hk.symm
    simp [hne]

/-- Claim C10: in the compiled maps of _build_field_map, a source alias is
bound to the destination field of the last configuration entry that lists it,
and a destination field carries the declared type of its last occurrence;
later definitions silently override earlier ones. -/
theorem claim_C10 (l1 l2 : List FieldDef) (d : FieldDef) :
    (∀ src : String, src ∈ d.extract → (∀ d2 ∈ l2, src ∉ d2.extract) →
      (build_field_map (l1 ++ d :: l2)).1 src = some d.field)
    ∧ ((∀ d2 ∈ l2, d2.field ≠ d.field) →
      (build_field_map (l1 ++ d :: l2)).2 d.field = some (d.type?.getD "string")) := by
  constructor
  · intro src hsrc hl2
    rw [build_field_map, List.foldl_append, List.foldl_cons,
      foldl_fieldStep_fst l2 _ src hl2, fieldStep_fst]
    simp [hsrc]
  · intro hl2
    rw [build_field_map, List.foldl_append, List.foldl_cons,
      foldl_fieldStep_snd l2 _ d.field hl2, fieldStep_snd]
    simp

/-- Witness for claim C10: two configuration entries share the alias col and
the later entry wins for both maps. -/
theorem claim_C10_witness :
    (build_field_map ([⟨"F1", none, ["col"]⟩] ++ (⟨"F2", some "int", ["col"]⟩ : FieldDef) :: [])).1 "col"
        = some (FieldDef.field ⟨"F2", some "int", ["col"]⟩)
    ∧ (build_field_map ([⟨"F1", none, ["col"]⟩] ++ (⟨"F2", some "int", ["col"]⟩ : FieldDef) :: [])).2
        (FieldDef.field ⟨"F2", some "int", ["col"]⟩)
        = some ((FieldDef.type? ⟨"F2", some "int", ["col"]⟩).getD "string") :=
  ⟨(claim_C10 [⟨"F1", none, ["col"]⟩] [] ⟨"F2", some "int", ["col"]⟩).1 "col"
      (by decide) (by decide),
   (claim_C10 [⟨"F1", none, ["col"]⟩] [] ⟨"F2", some "int", ["col"]⟩).2 (by decide)⟩

end FieldMap

section ScriptRunner

lemma scriptBody_filterMap (conn : Conn) (fails : Nat → Bool) (l : List Nat) :
    (l.flatMap (fun i => ScriptEvent.execStmt conn i ::
        (if fails i then [ScriptEvent.errorLog i] else []))).filterMap execIdx = l := by
  induction l with
  | nil => rfl
  | cons i rest ih =>
    by_cases hf : fails i <;>
      simp [List.flatMap_cons, List.filterMap_append, execIdx, hf, ih]

lemma scriptBody_no_commit (conn : Conn) (fails : Nat → Bool) (l : List Nat) :
    ∀ e ∈ l.flatMap (fun i => ScriptEvent.execStmt conn i ::
        (if fails i then [ScriptEvent.errorLog i] else [])), isCommitEvent e = false := by
  intro e he
  rcases List.mem_flatMap.mp he with ⟨i, _, hei⟩
  rcases List.mem_cons.mp hei with h1 | h2
  · simp [h1, isCommitEvent]
  · by_cases hf : fails i <;> simp [hf] at h2
    simp [h2, isCommitEvent]

lemma scriptBody_conn (conn : Conn) (fails : Nat → Bool) (l : List Nat)
    (c : Conn) (i : Nat)
    (h : ScriptEvent.execStmt c i ∈ l.flatMap (fun i => ScriptEvent.execStmt conn i ::
        (if fails i then [ScriptEvent.errorLog i] else []))) : c = conn := by
  rcases List.mem_flatMap.mp h with ⟨j, _, hej⟩
  rcases List.mem_cons.mp hej with h1 | h2
  · exact (ScriptEvent.execStmt.injEq ..).mp h1 |>.1
  · by_cases hf : fails j <;> simp [hf] at h2

lemma scriptBody_mem (conn : Conn) (fails : Nat → Bool) (l : List Nat)
    (i : Nat) (hi : i ∈ l) :
    ScriptEvent.execStmt conn i ∈ l.flatMap (fun i => ScriptEvent.execStmt conn i ::
        (if fails i then [ScriptEvent.errorLog i] else []))
    ∧ (fails i = true → ScriptEvent.errorLog i ∈ l.flatMap
        (fun i => ScriptEvent.execStmt conn i ::
          (if fails i then [ScriptEvent.errorLog i] else []))) := by
  constructor
  · exact List.mem_flatMap.mpr ⟨i, hi, List.mem_cons_self _ _⟩
  · intro hf
    exact List.mem_flatMap.mpr ⟨i, hi, by simp [hf]⟩

/-- Claim C7: executing the script runs every parsed statement in script
order on the one dedicated non-pooled connection opened for the whole
script; a failing statement is logged and every later statement still
executes; and the connection commits exactly once, as the last event, after
every statement. -/
theorem claim_C7 (sqlText : PyStr) (fresh : Nat) (fails : Nat → Bool)
    (h : parse_sql_script sqlText ≠ []) :
    ((execute_sql_script sqlText fresh fails).1.filterMap execIdx
        = List.range (parse_sql_script sqlText).length)
    ∧ (∀ c i, ScriptEvent.execStmt c i ∈ (execute_sql_script sqlText fresh fails).1 →
        c = get_connection fresh ∧ c.pooled = false)
    ∧ ((execute_sql_script sqlText fresh fails).1.filter isCommitEvent
        = [ScriptEvent.commitTx (get_connection fresh)])
    ∧ ((execute_sql_script sqlText fresh fails).1.getLast?
        = some (ScriptEvent.commitTx (get_connection fresh)))
    ∧ ∀ i, i < (parse_sql_script sqlText).length →
        ScriptEvent.execStmt (get_connection fresh) i
            ∈ (execute_sql_script sqlText fresh fails).1
        ∧ (fails i = true →
            ScriptEvent.errorLog i ∈ (execute_sql_script sqlText fresh fails).1) := by
  have hev : (execute_sql_script sqlText fresh fails).1
      = ((List.range (parse_sql_script sqlText).length).flatMap
          (fun i => ScriptEvent.execStmt (get_connection fresh) i ::
            (if fails i then [ScriptEvent.errorLog i] else [])))
        ++ [ScriptEvent.commitTx (get_connection fresh)] := by
    simp [execute_sql_script, h]
  refine ⟨?_, ?_, ?_, ?_, ?_⟩
  · rw [hev, List.filterMap_append, scriptBody_filterMap]
    simp [execIdx]
  · intro c i hmem
    rw [hev] at hmem
    rcases List.mem_append.mp hmem with h1 | h2
    · have hc := scriptBody_conn _ fails _ c i h1
      exact ⟨hc, by simp [hc, get_connection]⟩
    · simp at h2
  · rw [hev, List.filter_append]
    rw [List.filter_eq_nil_iff.mpr (by
      intro e he
      simp [scriptBody_no_commit _ fails _ e he])]
    simp [isCommitEvent]
  · rw [hev]
    exact List.getLast?_concat _
  · intro i hi
    have hmem := scriptBody_mem (get_connection fresh) fails
      (List.range (parse_sql_script sqlText).length) i (List.mem_range.mpr hi)
    rw [hev]
    exact ⟨List.mem_append.mpr (Or.inl hmem.1),
      fun hf => List.mem_append.mpr (Or.inl (hmem.2 hf))⟩

/-- Witness for claim C7 on a concrete three-statement script whose middle
statement fails. -/
theorem claim_C7_witness :
    ((execute_sql_script (pystr "a; b; c") 7 (fun i => i = 1)).1.filterMap execIdx
        = List.range (parse_sql_script (pystr "a; b; c")).length)
    ∧ (∀ c i, ScriptEvent.execStmt c i
          ∈ (execute_sql_script (pystr "a; b; c") 7 (fun i => i = 1)).1 →
        c = get_connection 7 ∧ c.pooled = false)
    ∧ ((execute_sql_script (pystr "a; b; c") 7 (fun i => i = 1)).1.filter isCommitEvent
        = [ScriptEvent.commitTx (get_connection 7)])
    ∧ ((execute_sql_script (pystr "a; b; c") 7 (fun i => i = 1)).1.getLast?
        = some (ScriptEvent.commitTx (get_connection 7)))
    ∧ ∀ i, i < (parse_sql_script (pystr "a; b; c")).length →
        ScriptEvent.execStmt (get_connection 7) i
            ∈ (execute_sql_script (pystr "a; b; c") 7 (fun i => i = 1)).1
        ∧ ((fun i => decide (i = 1)) i = true →
            ScriptEvent.errorLog i
              ∈ (execute_sql_script (pystr "a; b; c") 7 (fun i => i = 1)).1) :=
  claim_C7 (pystr "a; b; c") 7 (fun i => i = 1) (by decide)

end ScriptRunner

section BulkLoader

lemma run_downgraded (avail : Bool) (c : Nat) (files : List (Nat × Bool)) :
    run_loader avail ⟨true, some false, c⟩ files
      = (files.map (fun f => (⟨false, true, f.1⟩ : FileOutcome)),
         ⟨true, some false, c⟩) := by
  induction files with
  | nil => rfl
  | cons f fs ih =>
    simp [run_loader, load_data_infile_step, check_load_data_support, ih]

lemma run_supported (c : Nat) (pre post : List (Nat × Bool)) (fk : Nat × Bool)
    (hpre : ∀ f ∈ pre, f.2 = false) (hfk : fk.2 = true) :
    run_loader true ⟨true, some true, c⟩ (pre ++ fk :: post)
      = (pre.map (fun f => (⟨true, false, f.1⟩ : FileOutcome))
          ++ (⟨true, true, fk.1⟩ : FileOutcome)
            :: post.map (fun f => (⟨false, true, f.1⟩ : FileOutcome)),
         ⟨true, some false, c + 1⟩) := by
  induction pre with
  | nil =>
    simp [run_loader, load_data_infile_step, check_load_data_support, hfk,
      run_downgraded]
  | cons p rest ih =>
    have hp : p.2 = false := hpre p (List.mem_cons_self p rest)
    have hrest := ih (fun f hf => hpre f (List.mem_cons_of_mem p hf))
    simp [run_loader, load_data_infile_step, check_load_data_support, hp, hrest]

lemma run_init_true (l : List (Nat × Bool)) (h : l ≠ []) :
    run_loader true initInfileState l = run_loader true ⟨true, some true, 0⟩ l := by
  match l with
  | x :: xs =>
    simp [run_loader, load_data_infile_step, check_load_data_support,
      initInfileState, db_check_load_data_support]

/-- Claim C5: once the fast bulk-load path is unavailable at the probe or
fails at runtime on some file, that file and every subsequent file of the run
load all their rows through the batched-insert fallback, the downgrade is
logged exactly once, and the fast path is never attempted again (spec-
modelled database primitives; the downgrade bookkeeping is processor code,
lines 385 to 457). -/
theorem claim_C5 (files : List (Nat × Bool)) :
    (files ≠ [] →
      (run_loader false initInfileState files).1
          = files.map (fun f => (⟨false, true, f.1⟩ : FileOutcome))
      ∧ (run_loader false initInfileState files).2.downgradeLogCount = 1)
    ∧ ∀ (pre post : List (Nat × Bool)) (fk : Nat × Bool),
      (∀ f ∈ pre, f.2 = false) → fk.2 = true →
      (run_loader true initInfileState (pre ++ fk :: post)).1
          = pre.map (fun f => (⟨true, false, f.1⟩ : FileOutcome))
            ++ (⟨true, true, fk.1⟩ : FileOutcome)
              :: post.map (fun f => (⟨false, true, f.1⟩ : FileOutcome))
      ∧ (run_loader true initInfileState (pre ++ fk :: post)).2.downgradeLogCount = 1 := by
  constructor
  · intro h
    match files, h with
    | f :: fs, _ =>
      have habs := run_downgraded false 1 fs
      constructor <;>
        simp [run_loader, load_data_infile_step, check_load_data_support,
          initInfileState, db_check_load_data_support, habs]
  · intro pre post fk hpre hfk
    have hne : pre ++ fk :: post ≠ [] := by simp
    have hsup := run_supported 0 pre post fk hpre hfk
    rw [run_init_true _ hne, hsup]
    exact ⟨rfl, rfl⟩

/-- Witness for claim C5: a run where the probe fails, and a run where the
fast path fails at runtime on the second of three files. -/
theorem claim_C5_witness :
    ((run_loader false initInfileState [(5, false)]).1
        = [(5, false)].map (fun f => (⟨false, true, f.1⟩ : FileOutcome))
      ∧ (run_loader false initInfileState [(5, false)]).2.downgradeLogCount = 1)
    ∧ ((run_loader true initInfileState ([(5, false)] ++ (7, true) :: [(3, false)])).1
        = [(5, false)].map (fun f => (⟨true, false, f.1⟩ : FileOutcome))
          ++ (⟨true, true, (7, true).1⟩ : FileOutcome)
            :: [(3, false)].map (fun f => (⟨false, true, f.1⟩ : FileOutcome))
      ∧ (run_loader true initInfileState
          ([(5, false)] ++ (7, true) :: [(3, false)])).2.downgradeLogCount = 1) :=
  ⟨(claim_C5 [(5, false)]).1 (by decide),
   (claim_C5 [(5, false)]).2 [(5, false)] [(3, false)] (7, true) (by decide) rfl⟩

end BulkLoader

section DataDirectories

lemma lookup_append_or (m1 m2 : DirMap) (k : PyStr) :
    (m1 ++ m2).lookup k = (m1.lookup k).or (m2.lookup k) := by
  induction m1 with
  | nil => simp
  | cons a rest ih =>
    cases a with
    | mk a1 a2 =>
      by_cases hk : k = a1
      · subst hk
        simp [List.lookup]
      · simp [List.lookup, beq_eq_false_iff_ne.mpr hk, ih]

lemma insertIfNew_ne_nil (m : DirMap) (k : PyStr) (v : DirEntry) :
    insertIfNew m k v ≠ [] := by
  unfold insertIfNew
  split
  · intro hm
    subst hm
    simp at *
  · simp

lemma foldl_insertIfNew_keeps_ne_nil (ds : List DirEntry) (m : DirMap)
    (hm : m ≠ []) :
    ds.foldl (fun m d => insertIfNew m (tagTableName d) d) m ≠ [] := by
  induction ds generalizing m with
  | nil => exact hm
  | cons d rest ih => exact ih _ (insertIfNew_ne_nil m (tagTableName d) d)

lemma foldl_insertIfNew_ne_nil (ds : List DirEntry) (hds : ds ≠ []) :
    ds.foldl (fun m d => insertIfNew m (tagTableName d) d) [] ≠ [] := by
  match ds, hds with
  | d :: rest, _ =>
    exact foldl_insertIfNew_keeps_ne_nil rest _
      (insertIfNew_ne_nil [] (tagTableName d) d)

lemma foldl_insertIfNew_lookup (ds : List DirEntry) (m : DirMap) (k : PyStr) :
    (ds.foldl (fun m d => insertIfNew m (tagTableName d) d) m).lookup k
      = (m.lookup k).or ((ds.find? (fun d => tagTableName d == k)).map id) := by
  induction ds generalizing m with
  | nil => simp
  | cons d rest ih =>
    rw [List.foldl_cons, ih]
    by_cases hk : tagTableName d = k
    · subst hk
      cases hm : m.lookup (tagTableName d) with
      | some v =>
        have : insertIfNew m (tagTableName d) d = m := by
          simp [insertIfNew, hm]
        simp [this, hm, List.find?_cons]
      | none =>
        have : insertIfNew m (tagTableName d) d = m ++ [(tagTableName d, d)] := by
          simp [insertIfNew, hm]
        simp [this, lookup_append_or, hm, List.lookup, List.find?_cons]
    · have hbeq : (tagTableName d == k) = false := beq_eq_false_iff_ne.mpr hk
      have hbeq2 : (k == tagTableName d) = false :=
        beq_eq_false_iff_ne.mpr (fun h => hk h.symm)
      have hlk : ∀ m2 : DirMap, (insertIfNew m2 (tagTableName d) d).lookup k
          = m2.lookup k := by
        intro m2
        unfold insertIfNew
        split
        · rfl
        · rw [lookup_append_or]
          simp [List.lookup, hbeq2]
      rw [hlk, List.find?_cons, hbeq]

lemma lookup_map_put (m : DirMap) (c : PyStr) (v : DirEntry) (k : PyStr) :
    (m.map (fun p => if p.1 = c then (c, v) else p)).lookup k
      = if c = k then (m.lookup c).map (fun _ => v) else m.lookup k := by
  induction m with
  | nil => simp
  | cons a rest ih =>
    cases a with
    | mk a1 a2 =>
      simp only [List.map_cons]
      by_cases hac : a1 = c
      · rw [if_pos hac]
        by_cases hck : c = k
        · subst hck
          subst hac
          simp [List.lookup, ih]
        · have hka : (k == a1) = false :=
            beq_eq_false_iff_ne.mpr (fun h => hck ((h.trans hac).symm))
          have hkc : (k == c) = false :=
            beq_eq_false_iff_ne.mpr (fun h => hck h.symm)
          simp [List.lookup, hka, hkc, ih, hck]
      · rw [if_neg hac]
        by_cases hka : k = a1
        · have hck : ¬ c = k := fun h => hac ((h.trans hka).symm ▸ rfl)
          subst hka
          simp [List.lookup, hck]
        · have hca : (c == a1) = false :=
            beq_eq_false_iff_ne.mpr (fun h => hac h.symm)
          simp [List.lookup, beq_eq_false_iff_ne.mpr hka, hca, ih]

lemma insertPut_lookup (m : DirMap) (c : PyStr) (v : DirEntry) (k : PyStr) :
    (insertPut m c v).lookup k = if c = k then some v else m.lookup k := by
  unfold insertPut
  split
  · rename_i hsome
    rw [lookup_map_put]
    by_cases hck : c = k
    · subst hck
      rcases Option.isSome_iff_exists.mp hsome with ⟨b, hb⟩
      simp [hb]
    · simp [hck]
  · rw [lookup_append_or]
    by_cases hck : c = k
    · subst hck
      rename_i hnone
      have : m.lookup c = none := Option.not_isSome_iff_eq_none.mp hnone
      simp [this, List.lookup]
    · have hkc : (k == c) = false := beq_eq_false_iff_ne.mpr fun h => hck h.symm
      simp [List.lookup, hkc, hck]

lemma or_of_isSome {o y : Option DirEntry} (h : o.isSome) : o.or y = o := by
  rcases Option.isSome_iff_exists.mp h with ⟨a, ha⟩
  simp [ha]

lemma foldl_insertPut_lookup (ds : List DirEntry) (m : DirMap) (k : PyStr) :
    (ds.foldl (fun m d => insertPut m (childTableName d) d) m).lookup k
      = ((ds.filter (fun d => childTableName d == k)).getLast?).or (m.lookup k) := by
  induction ds generalizing m with
  | nil => simp
  | cons d rest ih =>
    rw [List.foldl_cons, ih, insertPut_lookup]
    by_cases hk : childTableName d = k
    · have hbeq : (childTableName d == k) = true := beq_iff_eq.mpr hk
      rw [List.filter_cons, hbeq, if_pos rfl]
      cases hrest : rest.filter (fun d => childTableName d == k) with
      | nil => simp [hk]
      | cons x xs =>
        rw [List.getLast?_cons_cons]
        have hsome : ((x :: xs).getLast?).isSome := by
          rw [List.getLast?_isSome]
          simp
        rw [if_pos hk, or_of_isSome hsome, or_of_isSome hsome]
    · have hbeq : (childTableName d == k) = false := beq_eq_false_iff_ne.mpr hk
      rw [List.filter_cons]
      simp [hbeq, hk]

/-- Claim C4 (amended): every directory whose name matches the fixed tag set
maps to the table UPPER(tag) + _UD, but among duplicate tag directories only
the first one found in scan order is retained for the table (the lookup is
the first match in scan order); only when no directory matches does every
immediate child directory become its own table named from the child, the
last assignment winning for a repeated name. -/
theorem claim_C4_amended (rg ch : List DirEntry) (k : PyStr) :
    ((rg.filter (fun d => targetNames.contains d.name)) ≠ [] →
      ((find_data_directories rg ch).lookup k
        = (rg.filter (fun d => targetNames.contains d.name)).find?
            (fun d => tagTableName d == k))
      ∧ ∀ d ∈ rg.filter (fun d => targetNames.contains d.name),
          ((find_data_directories rg ch).lookup (tagTableName d)).isSome = true)
    ∧ ((rg.filter (fun d => targetNames.contains d.name)) = [] →
      (find_data_directories rg ch).lookup k
        = (ch.filter (fun d => childTableName d == k)).getLast?) := by
  constructor
  · intro hne
    have hm := foldl_insertIfNew_ne_nil _ hne
    have hlk : ∀ k2, (find_data_directories rg ch).lookup k2
        = (rg.filter (fun d => targetNames.contains d.name)).find?
            (fun d => tagTableName d == k2) := by
      intro k2
      unfold find_data_directories
      rw [if_neg hm, foldl_insertIfNew_lookup]
      simp
    refine ⟨hlk k, ?_⟩
    intro d hd
    rw [hlk (tagTableName d)]
    rw [List.find?_isSome]
    exact ⟨d, hd, by simp⟩
  · intro hnil
    have hdef : find_data_directories rg ch
        = ch.foldl (fun m d => insertPut m (childTableName d) d) [] := by
      simp only [find_data_directories]
      rw [hnil]
      simp
    rw [hdef, foldl_insertPut_lookup]
    simp

/-- Witness for claim C4 at a concrete tree with one tag directory and at a
concrete tree with no tag directory. -/
theorem claim_C4_witness :
    (([(⟨pystr "x/4G", pystr "4G"⟩ : DirEntry)].filter
          (fun d => targetNames.contains d.name) ≠ [] →
      ((find_data_directories [⟨pystr "x/4G", pystr "4G"⟩] []).lookup (pystr "4G_UD")
        = ([(⟨pystr "x/4G", pystr "4G"⟩ : DirEntry)].filter
            (fun d => targetNames.contains d.name)).find?
              (fun d => tagTableName d == pystr "4G_UD"))
      ∧ ∀ d ∈ [(⟨pystr "x/4G", pystr "4G"⟩ : DirEntry)].filter
            (fun d => targetNames.contains d.name),
          ((find_data_directories [⟨pystr "x/4G", pystr "4G"⟩] []).lookup
              (tagTableName d)).isSome = true))
    ∧ ((([] : List DirEntry).filter (fun d => targetNames.contains d.name)) = [] →
      (find_data_directories [] [⟨pystr "w/x", pystr "x"⟩]).lookup (pystr "x_UD")
        = ([(⟨pystr "w/x", pystr "x"⟩ : DirEntry)].filter
            (fun d => childTableName d == pystr "x_UD")).getLast?) :=
  ⟨(claim_C4_amended [⟨pystr "x/4G", pystr "4G"⟩] [] (pystr "4G_UD")).1,
   (claim_C4_amended [] [⟨pystr "w/x", pystr "x"⟩] (pystr "x_UD")).2⟩

/-- Counterexample to claim C4 as stated: two directories share the tag 4G
up to case, yet the discovery map binds the table 4G_UD to the first one only
and the second directory appears nowhere in the result, so its files do not
contribute to the table. -/
theorem claim_C4_counterexample :
    find_data_directories
        [⟨pystr "a/4G", pystr "4G"⟩, ⟨pystr "b/4g", pystr "4g"⟩] []
      = [(pystr "4G_UD", ⟨pystr "a/4G", pystr "4G"⟩)]
    ∧ ¬ (⟨pystr "b/4g", pystr "4g"⟩ : DirEntry) ∈
        (find_data_directories
          [⟨pystr "a/4G", pystr "4G"⟩, ⟨pystr "b/4g", pystr "4g"⟩] []).map Prod.snd := by
  constructor <;> decide

end DataDirectories

section CsvRejection

/-- Claim C8 (amended): a data file whose headers match 3 or fewer known
columns is rejected; when the lowercased full path of the file contains the
auxiliary marker kpis the file is skipped with only a WARN log and
contributes zero rows, otherwise the rejection raises a ValueError that the
enclosing loop logs as an ERROR; in both cases the loop goes on to the
sibling files unchanged. -/
theorem claim_C8_amended (fm : List (PyStr × PyStr)) (f : CsvFile)
    (fs : List CsvFile) :
    ((matchedColumns fm f).length ≤ 3 →
      (pyContains (pyLower f.path) (pystr "kpis") = true →
        csv_header_check fm f = CsvOutcome.skipWarn ∧ csvContribution fm f = 0)
      ∧ (pyContains (pyLower f.path) (pystr "kpis") = false →
        csv_header_check fm f = CsvOutcome.rejectError ∧ csvContribution fm f = 0))
    ∧ csv_loop fm (f :: fs) = csv_header_check fm f :: csv_loop fm fs := by
  refine ⟨?_, rfl⟩
  intro hle
  constructor
  · intro hkpis
    have h1 : csv_header_check fm f = CsvOutcome.skipWarn := by
      simp [csv_header_check, hle, hkpis]
    exact ⟨h1, by simp [csvContribution, h1]⟩
  · intro hkpis
    have h1 : csv_header_check fm f = CsvOutcome.rejectError := by
      simp [csv_header_check, hle, hkpis]
    exact ⟨h1, by simp [csvContribution, h1]⟩

/-- Witness for claim C8 on a concrete one-column file under a kpis path and
on the same file under a plain path. -/
theorem claim_C8_witness :
    (csv_header_check [(pystr "c1", pystr "F1")]
        ⟨pystr "kpis/data.csv", pystr "data.csv", [pystr "c1"], 10⟩
      = CsvOutcome.skipWarn
    ∧ csvContribution [(pystr "c1", pystr "F1")]
        ⟨pystr "kpis/data.csv", pystr "data.csv", [pystr "c1"], 10⟩ = 0)
    ∧ (csv_header_check [(pystr "c1", pystr "F1")]
        ⟨pystr "other/data.csv", pystr "data.csv", [pystr "c1"], 10⟩
      = CsvOutcome.rejectError
    ∧ csvContribution [(pystr "c1", pystr "F1")]
        ⟨pystr "other/data.csv", pystr "data.csv", [pystr "c1"], 10⟩ = 0) :=
  ⟨((claim_C8_amended [(pystr "c1", pystr "F1")]
      ⟨pystr "kpis/data.csv", pystr "data.csv", [pystr "c1"], 10⟩ []).1
        (by decide)).1 (by decide),
   ((claim_C8_amended [(pystr "c1", pystr "F1")]
      ⟨pystr "other/data.csv", pystr "data.csv", [pystr "c1"], 10⟩ []).1
        (by decide)).2 (by decide)⟩

/-- Counterexample to claim C8 as stated: the marker is matched against the
full path, not the file name, so a low-match file named data.csv inside a
directory called kpis is silently warn-skipped although its own name does
not contain the marker, where the claim prescribes an ERROR rejection. -/
theorem claim_C8_counterexample :
    csv_header_check [(pystr "c1", pystr "F1")]
        ⟨pystr "kpis/data.csv", pystr "data.csv", [pystr "c1"], 10⟩
      = CsvOutcome.skipWarn
    ∧ pyContains
        (pyLower (CsvFile.name
          ⟨pystr "kpis/data.csv", pystr "data.csv", [pystr "c1"], 10⟩))
        (pystr "kpis") = false := by
  constructor <;> decide

end CsvRejection

section TypeCoercion

/-- Claim C2 evaluation: the four sample datetime values are returned
unchanged by _convert_datetime_column, not serialized to the canonical form,
and an unparseable value does not become null; the intended parse and
serialization would have produced the canonical string, but the final
strftime-fillna step raises and the outer handler returns the input column.
Only an all-empty column is nulled by the early return. -/
theorem claim_C2_code_eval :
    convert_datetime_column
        [some (pystr "2026-01-06"), some (pystr "2026/01/06 00:00"),
         some (pystr "2026年01月06日"), some (pystr "20260106"),
         some (pystr "not a date")]
      = [some (pystr "2026-01-06"), some (pystr "2026/01/06 00:00"),
         some (pystr "2026年01月06日"), some (pystr "20260106"),
         some (pystr "not a date")]
    ∧ parseWithFormat (DtFormat.strp fmtDashDate) (pystr "2026-01-06")
        = some ⟨2026, 1, 6, 0, 0, 0⟩
    ∧ parseWithFormat (DtFormat.strp fmtSlashHM) (pystr "2026/01/06 00:00")
        = some ⟨2026, 1, 6, 0, 0, 0⟩
    ∧ parseWithFormat (DtFormat.strp fmtCJKDate) (pystr "2026年01月06日")
        = some ⟨2026, 1, 6, 0, 0, 0⟩
    ∧ parseWithFormat (DtFormat.strp fmtCompactDate) (pystr "20260106")
        = some ⟨2026, 1, 6, 0, 0, 0⟩
    ∧ strftimeCanonical ⟨2026, 1, 6, 0, 0, 0⟩ = pystr "2026-01-06 00:00:00"
    ∧ convert_datetime_column [some (pystr ""), none] = [none, none] := by
  refine ⟨?_, by decide, by decide, by decide, by decide, by decide, by decide⟩
  decide

attribute [local semireducible] Rat.mul Rat.inv Rat.add Rat.sub in
/-- Claim C3 evaluation: 95 percent coerces to 0.95 as float and to 1 as
int, the empty value becomes null without a parse error, but the genuine
zero value 0 also becomes null: the trailing replace of the rendered string
0 (and 0.0) by None collapses real zeros into the null representation. -/
theorem claim_C3_code_eval :
    convert_float_column [pystr "95%", pystr "", pystr "0"]
      = [some (pystr "0.95"), none, none]
    ∧ convert_int_column [pystr "95%", pystr "", pystr "0"]
      = [some (pystr "1"), none, none] := by
  constructor <;> rfl

end TypeCoercion

section SqlParsing

lemma pySplit_ne_nil (c : Char) (s : PyStr) : pySplit c s ≠ [] := by
  cases s with
  | nil => simp [pySplit]
  | cons x xs =>
    simp only [pySplit]
    cases pySplit c xs with
    | nil => simp
    | cons p ps =>
      by_cases hx : x = c <;> simp [hx]

lemma pySplit_cons_eq (c x : Char) (xs : PyStr) (q : PyStr) (qs : List PyStr)
    (hsp : pySplit c xs = q :: qs) :
    pySplit c (x :: xs) = if x = c then [] :: q :: qs else (x :: q) :: qs := by
  simp only [pySplit, hsp]

lemma mem_pySplit_no_sep (c : Char) (s : PyStr) :
    ∀ p ∈ pySplit c s, c ∉ p := by
  induction s with
  | nil =>
    intro p hp
    simp [pySplit] at hp
    simp [hp]
  | cons x xs ih =>
    intro p hp
    cases hsp : pySplit c xs with
    | nil => exact absurd hsp (pySplit_ne_nil c xs)
    | cons q qs =>
      rw [pySplit_cons_eq c x xs q qs hsp] at hp
      by_cases hx : x = c
      · rw [if_pos hx] at hp
        rcases List.mem_cons.mp hp with h1 | h2
        · simp [h1]
        · exact ih p (hsp ▸ h2)
      · rw [if_neg hx] at hp
        rcases List.mem_cons.mp hp with h1 | h2
        · subst h1
          intro hc
          rcases List.mem_cons.mp hc with h3 | h4
          · exact hx h3.symm
          · exact ih q (hsp ▸ List.mem_cons_self q qs) h4
        · exact ih p (hsp ▸ List.mem_cons_of_mem q h2)

lemma mem_pySplit_mem (c : Char) (s : PyStr) :
    ∀ p ∈ pySplit c s, ∀ x ∈ p, x ∈ s := by
  induction s with
  | nil =>
    intro p hp
    simp [pySplit] at hp
    simp [hp]
  | cons y xs ih =>
    intro p hp x hx
    cases hsp : pySplit c xs with
    | nil => exact absurd hsp (pySplit_ne_nil c xs)
    | cons q qs =>
      rw [pySplit_cons_eq c y xs q qs hsp] at hp
      by_cases hy : y = c
      · rw [if_pos hy] at hp
        rcases List.mem_cons.mp hp with h1 | h2
        · subst h1
          simp at hx
        · exact List.mem_cons_of_mem y (ih p (hsp ▸ h2) x hx)
      · rw [if_neg hy] at hp
        rcases List.mem_cons.mp hp with h1 | h2
        · subst h1
          rcases List.mem_cons.mp hx with h3 | h4
          · exact h3 ▸ List.mem_cons_self y xs
          · exact List.mem_cons_of_mem y
              (ih q (hsp ▸ List.mem_cons_self q qs) x h4)
        · exact List.mem_cons_of_mem y
            (ih p (hsp ▸ List.mem_cons_of_mem q h2) x hx)

lemma pySplit_eq_single (c : Char) (s : PyStr) (h : c ∉ s) :
    pySplit c s = [s] := by
  induction s with
  | nil => rfl
  | cons x xs ih =>
    have hx : ¬ x = c := fun he => h (he ▸ List.mem_cons_self x xs)
    have hxs : c ∉ xs := fun hm => h (List.mem_cons_of_mem x hm)
    simp only [pySplit, ih hxs]
    simp [hx]

lemma pySplit_append_cons (c : Char) (p rest : PyStr) (h : c ∉ p) :
    pySplit c (p ++ c :: rest) = p :: pySplit c rest := by
  induction p with
  | nil =>
    simp only [List.nil_append, pySplit]
    cases hsp : pySplit c rest with
    | nil => exact absurd hsp (pySplit_ne_nil c rest)
    | cons q qs => simp
  | cons y ys ih =>
    have hy : ¬ y = c := fun he => h (he ▸ List.mem_cons_self y ys)
    have hys : c ∉ ys := fun hm => h (List.mem_cons_of_mem y hm)
    simp only [List.cons_append, pySplit, List.append_eq]
    rw [ih hys]
    simp [hy]

lemma pySplit_joinSep (c : Char) (parts : List PyStr) (hne : parts ≠ [])
    (h : ∀ p ∈ parts, c ∉ p) :
    pySplit c (joinSep c parts) = parts := by
  induction parts with
  | nil => exact absurd rfl hne
  | cons p ps ih =>
    cases ps with
    | nil =>
      simp only [joinSep]
      exact pySplit_eq_single c p (h p (List.mem_cons_self p []))
    | cons q qs =>
      simp only [joinSep]
      rw [pySplit_append_cons c p _ (h p (List.mem_cons_self p (q :: qs)))]
      rw [ih (by simp) (fun r hr => h r (List.mem_cons_of_mem p hr))]

lemma mem_joinSep (c : Char) (parts : List PyStr) (x : Char)
    (hx : x ∈ joinSep c parts) : x = c ∨ ∃ p ∈ parts, x ∈ p := by
  induction parts with
  | nil => simp [joinSep] at hx
  | cons p ps ih =>
    cases ps with
    | nil =>
      simp only [joinSep] at hx
      exact Or.inr ⟨p, List.mem_cons_self p [], hx⟩
    | cons q qs =>
      simp only [joinSep] at hx
      rcases List.mem_append.mp hx with h1 | h2
      · exact Or.inr ⟨p, List.mem_cons_self p _, h1⟩
      · rcases List.mem_cons.mp h2 with h3 | h4
        · exact Or.inl h3
        · rcases ih h4 with h5 | ⟨r, hr, hxr⟩
          · exact Or.inl h5
          · exact Or.inr ⟨r, List.mem_cons_of_mem p hr, hxr⟩

lemma joinSep_head? (c : Char) (l : PyStr) (rest : List PyStr) (h : l ≠ []) :
    (joinSep c (l :: rest)).head? = l.head? := by
  cases rest with
  | nil => rfl
  | cons q qs =>
    simp only [joinSep]
    cases l with
    | nil => exact absurd rfl h
    | cons a t => rfl

lemma joinSep_concat_ne_nil (c : Char) (parts : List PyStr) (l : PyStr)
    (h : l ≠ []) : joinSep c (parts ++ [l]) ≠ [] := by
  cases parts with
  | nil => exact h
  | cons p ps =>
    cases hps : ps ++ [l] with
    | nil => simp at hps
    | cons q qs =>
      simp only [List.cons_append, hps, joinSep]
      simp

lemma joinSep_getLast? (c : Char) (parts : List PyStr) (l : PyStr) (h : l ≠ []) :
    (joinSep c (parts ++ [l])).getLast? = l.getLast? := by
  induction parts with
  | nil => rfl
  | cons p ps ih =>
    have hJne : joinSep c (ps ++ [l]) ≠ [] := joinSep_concat_ne_nil c ps l h
    cases hps : ps ++ [l] with
    | nil => simp at hps
    | cons q qs =>
      simp only [List.cons_append, hps, joinSep]
      rw [List.getLast?_append_of_ne_nil p (by simp)]
      have : (c :: joinSep c (q :: qs)) = [c] ++ joinSep c (q :: qs) := rfl
      rw [this, List.getLast?_append_of_ne_nil [c] (hps ▸ hJne), ← hps, ih]

lemma pyStrip_sublist (l : PyStr) : (pyStrip l).Sublist l := by
  have h1 : (l.dropWhile isPyWS).Sublist l := List.dropWhile_sublist _
  have h2 := (List.dropWhile_sublist (l := (l.dropWhile isPyWS).reverse)
    isPyWS).reverse
  rw [List.reverse_reverse] at h2
  exact h2.trans h1

lemma mem_of_mem_pyStrip {l : PyStr} {x : Char} (h : x ∈ pyStrip l) : x ∈ l :=
  (pyStrip_sublist l).subset h

lemma dropWhile_head_not {p : Char → Bool} {l t : PyStr} {a : Char}
    (h : l.dropWhile p = a :: t) : p a = false := by
  induction l with
  | nil => simp at h
  | cons x xs ih =>
    rw [List.dropWhile_cons] at h
    by_cases hp : p x
    · rw [if_pos hp] at h
      exact ih h
    · rw [if_neg hp] at h
      cases h
      exact Bool.not_eq_true _ ▸ (by simpa using hp)

lemma dropWhile_getLast? {p : Char → Bool} (l : PyStr)
    (h : l.dropWhile p ≠ []) : (l.dropWhile p).getLast? = l.getLast? := by
  induction l with
  | nil => rfl
  | cons x xs ih =>
    rw [List.dropWhile_cons]
    by_cases hp : p x
    · rw [if_pos hp]
      rw [List.dropWhile_cons, if_pos hp] at h
      have hxs : xs ≠ [] := by
        intro he
        rw [he] at h
        simp at h
      rw [ih h]
      have : x :: xs = [x] ++ xs := rfl
      rw [this, List.getLast?_append_of_ne_nil [x] hxs]
    · rw [if_neg hp]

lemma pyStrip_getLast?_not_ws (l : PyStr) (a : Char)
    (h : (pyStrip l).getLast? = some a) : isPyWS a = false := by
  unfold pyStrip at h
  rw [List.getLast?_reverse] at h
  cases hv : (l.dropWhile isPyWS).reverse.dropWhile isPyWS with
  | nil => rw [hv] at h; simp at h
  | cons b t =>
    rw [hv] at h
    simp at h
    exact h ▸ dropWhile_head_not hv

lemma pyStrip_head?_not_ws (l : PyStr) (a : Char)
    (h : (pyStrip l).head? = some a) : isPyWS a = false := by
  unfold pyStrip at h
  rw [List.head?_reverse] at h
  have hvne : (l.dropWhile isPyWS).reverse.dropWhile isPyWS ≠ [] := by
    intro he
    rw [he] at h
    simp at h
  rw [dropWhile_getLast? _ hvne, List.getLast?_reverse] at h
  cases hu : l.dropWhile isPyWS with
  | nil => rw [hu] at h; simp at h
  | cons b t =>
    rw [hu] at h
    simp at h
    exact h ▸ dropWhile_head_not hu

lemma pyStrip_eq_self (l : PyStr)
    (h1 : ∀ a, l.head? = some a → isPyWS a = false)
    (h2 : ∀ a, l.getLast? = some a → isPyWS a = false) : pyStrip l = l := by
  have hd : l.dropWhile isPyWS = l := by
    cases l with
    | nil => rfl
    | cons a t =>
      rw [List.dropWhile_cons, if_neg]
      simp [h1 a rfl]
  unfold pyStrip
  rw [hd]
  have hd2 : l.reverse.dropWhile isPyWS = l.reverse := by
    cases hr : l.reverse with
    | nil => simp [hr]
    | cons b t2 =>
      rw [List.dropWhile_cons, if_neg]
      have hb : l.getLast? = some b := by
        rw [← List.head?_reverse, hr]
        rfl
      simp [h2 b hb]
  rw [hd2, List.reverse_reverse]

lemma pyStrip_idem (l : PyStr) : pyStrip (pyStrip l) = pyStrip l := by
  by_cases h : pyStrip l = []
  · rw [h]
    rfl
  · exact pyStrip_eq_self (pyStrip l)
      (fun a ha => pyStrip_head?_not_ws l a ha)
      (fun a ha => pyStrip_getLast?_not_ws l a ha)

lemma pyStrip_eq_nil_iff (l : PyStr) :
    pyStrip l = [] ↔ ∀ x ∈ l, isPyWS x = true := by
  constructor
  · intro h x hx
    unfold pyStrip at h
    rw [List.reverse_eq_nil_iff] at h
    have hall : ∀ y ∈ (l.dropWhile isPyWS).reverse, isPyWS y = true :=
      List.dropWhile_eq_nil_iff.mp h
    have hu : ∀ y ∈ l.dropWhile isPyWS, isPyWS y = true := by
      intro y hy
      exact hall y (List.mem_reverse.mpr hy)
    rcases List.mem_append.mp
        ((List.takeWhile_append_dropWhile (p := isPyWS) (l := l)) ▸ hx) with
      h1 | h2
    · exact List.mem_takeWhile_imp h1
    · exact hu x h2
  · intro h
    have hd : l.dropWhile isPyWS = [] := List.dropWhile_eq_nil_iff.mpr h
    unfold pyStrip
    rw [hd]
    rfl

lemma cleanLine_eq_some {line l : PyStr} (h : cleanLine line = some l) :
    l = pyStrip line ∧ l ≠ [] ∧ pyStartsWith '#' l = false := by
  unfold cleanLine at h
  by_cases h1 : pyStrip line = []
  · simp [h1] at h
  · by_cases h2 : pyStartsWith '#' (pyStrip line) = true
    · simp [h1, h2] at h
    · simp [h1, h2] at h
      subst h
      exact ⟨rfl, h1, Bool.not_eq_true _ ▸ h2⟩

lemma lines_mem_elim (part l : PyStr)
    (hl : l ∈ (pySplit '\n' part).filterMap cleanLine) :
    ∃ line, line ∈ pySplit '\n' part ∧ l = pyStrip line
      ∧ l ≠ [] ∧ pyStartsWith '#' l = false := by
  rcases List.mem_filterMap.mp hl with ⟨line, hline, hg⟩
  rcases cleanLine_eq_some hg with ⟨heq, hne, hhash⟩
  exact ⟨line, hline, heq, hne, hhash⟩

lemma joinSep_strip_id (lines : List PyStr) (hne : lines ≠ [])
    (hprops : ∀ l ∈ lines, l ≠ []
      ∧ (∀ a, l.head? = some a → isPyWS a = false)
      ∧ (∀ a, l.getLast? = some a → isPyWS a = false)) :
    pyStrip (joinSep '\n' lines) = joinSep '\n' lines := by
  apply pyStrip_eq_self
  · intro a ha
    cases lines with
    | nil => exact absurd rfl hne
    | cons l0 rest =>
      have h0 := hprops l0 (List.mem_cons_self l0 rest)
      rw [joinSep_head? '\n' l0 rest h0.1] at ha
      exact h0.2.1 a ha
  · intro a ha
    rcases List.eq_nil_or_concat lines with h | ⟨L, b, hc⟩
    · exact absurd h hne
    · subst hc
      rw [List.concat_eq_append] at ha hprops
      have hb := hprops b (by simp)
      rw [joinSep_getLast? '\n' L b hb.1] at ha
      exact hb.2.2 a ha

lemma cleanPart_props (part stmt : PyStr) (hp : cleanPart part = some stmt) :
    stmt ≠ []
    ∧ (∀ x ∈ stmt, x = '\n' ∨ x ∈ part)
    ∧ ∀ line, line ∈ pySplit '\n' stmt →
        line ≠ [] ∧ pyStartsWith '#' line = false ∧ pyStrip line = line := by
  unfold cleanPart at hp
  by_cases hle : (pySplit '\n' part).filterMap cleanLine = []
  · simp [hle] at hp
  · rw [if_neg hle] at hp
    by_cases hc : pyStrip (joinSep '\n' ((pySplit '\n' part).filterMap cleanLine)) = []
    · simp [hc] at hp
    · rw [if_neg hc] at hp
      have hpe := Option.some.inj hp
      have hid : pyStrip (joinSep '\n' ((pySplit '\n' part).filterMap cleanLine))
          = joinSep '\n' ((pySplit '\n' part).filterMap cleanLine) := by
        apply joinSep_strip_id _ hle
        intro l hl
        rcases lines_mem_elim part l hl with ⟨line, hline, heq, hne, hhash⟩
        subst heq
        exact ⟨hne, fun a ha => pyStrip_head?_not_ws line a ha,
          fun a ha => pyStrip_getLast?_not_ws line a ha⟩
      have hstmt : stmt = joinSep '\n' ((pySplit '\n' part).filterMap cleanLine) := by
        rw [← hpe, hid]
      have hnosep : ∀ l ∈ (pySplit '\n' part).filterMap cleanLine, '\n' ∉ l := by
        intro l hl hmem
        rcases lines_mem_elim part l hl with ⟨line, hline, heq, _, _⟩
        subst heq
        exact mem_pySplit_no_sep '\n' part line hline (mem_of_mem_pyStrip hmem)
      refine ⟨?_, ?_, ?_⟩
      · rw [← hpe]
        exact hc
      · intro x hx
        rw [hstmt] at hx
        rcases mem_joinSep '\n' _ x hx with h1 | ⟨l, hl, hxl⟩
        · exact Or.inl h1
        · rcases lines_mem_elim part l hl with ⟨line, hline, heq, _, _⟩
          subst heq
          exact Or.inr (mem_pySplit_mem '\n' part line hline x
            (mem_of_mem_pyStrip hxl))
      · intro line2 hline2
        rw [hstmt, pySplit_joinSep '\n' _ hle hnosep] at hline2
        rcases lines_mem_elim part line2 hline2 with ⟨line, hline, heq, hne, hhash⟩
        subst heq
        exact ⟨hne, hhash, pyStrip_idem line⟩

lemma cleanPart_of_all_ws (p : PyStr) (h : ∀ x ∈ p, isPyWS x = true) :
    cleanPart p = none := by
  unfold cleanPart
  have hlines : (pySplit '\n' p).filterMap cleanLine = [] := by
    rw [List.filterMap_eq_nil_iff]
    intro line hline
    have hstr : pyStrip line = [] := (pyStrip_eq_nil_iff line).mpr
      (fun x hx => h x (mem_pySplit_mem '\n' p line hline x hx))
    unfold cleanLine
    simp [hstr]
  simp [hlines]

lemma parse_eq_filterMap (s : PyStr) :
    parse_sql_script s = (pySplit ';' s).filterMap cleanPart := by
  unfold parse_sql_script
  by_cases h : s = [] ∨ pyStrip s = []
  · rw [if_pos h]
    symm
    rw [List.filterMap_eq_nil_iff]
    intro p hp
    apply cleanPart_of_all_ws
    intro x hx
    have hxs : x ∈ s := mem_pySplit_mem ';' s p hp x hx
    rcases h with h1 | h2
    · subst h1
      simp at hxs
    · exact (pyStrip_eq_nil_iff s).mp h2 x hxs
  · rw [if_neg h]

/-- Claim C6: parse_sql_script returns exactly the cleaned semicolon-split
segments of the input in order; every returned statement is non-empty,
contains no semicolon, and every one of its lines is non-blank, already
stripped and not a comment line; empty or whitespace-only input yields the
empty list. -/
theorem claim_C6 (s : PyStr) :
    parse_sql_script s = (pySplit ';' s).filterMap cleanPart
    ∧ (pyStrip s = [] → parse_sql_script s = [])
    ∧ ∀ stmt, stmt ∈ parse_sql_script s →
        stmt ≠ [] ∧ ¬ ';' ∈ stmt
        ∧ ∀ line, line ∈ pySplit '\n' stmt →
            line ≠ [] ∧ pyStartsWith '#' line = false ∧ pyStrip line = line := by
  refine ⟨parse_eq_filterMap s, ?_, ?_⟩
  · intro h
    unfold parse_sql_script
    rw [if_pos (Or.inr h)]
  · intro stmt hstmt
    rw [parse_eq_filterMap s] at hstmt
    rcases List.mem_filterMap.mp hstmt with ⟨part, hpart, hcp⟩
    rcases cleanPart_props part stmt hcp with ⟨hne, hchars, hlines⟩
    refine ⟨hne, ?_, hlines⟩
    intro hsemi
    rcases hchars ';' hsemi with h1 | h2
    · simp at h1
    · exact mem_pySplit_no_sep ';' s part hpart h2

/-- Witness for claim C6: a whitespace-only script parses to nothing, and a
concrete statement of a parsed script has the guaranteed shape. -/
theorem claim_C6_witness :
    parse_sql_script (pystr " \n ") = []
    ∧ ((pystr "a") ≠ [] ∧ ¬ ';' ∈ (pystr "a")
      ∧ ∀ line, line ∈ pySplit '\n' (pystr "a") →
          line ≠ [] ∧ pyStartsWith '#' line = false ∧ pyStrip line = line) :=
  ⟨(claim_C6 (pystr " \n ")).2.1 (by decide),
   (claim_C6 (pystr "a;\n#c\n b ;;  ")).2.2 (pystr "a") (by decide)⟩

end SqlParsing

end CapacityReport
